import Mathlib

/-!
Verification of the access-statistics ledger of the `lru-cache` repository
(`src/include/lru/statistics.hpp`, class `LRU::Statistics<Key>`).

The ledger is embedded shallowly:

* counters are modelled as unbounded naturals — the spec's data model (§3)
  describes them as non-negative integers, and no claim concerns `size_t`
  wrap-around;
* the `std::unordered_map<Key, KeyStatistics> _hit_map` is modelled as an
  association list with pairwise-distinct keys (distinctness is proved as an
  invariant of all reachable states, mirroring the uniqueness guarantee of
  `std::unordered_map`);
* the C++ exception `LRU::Error::UnmonitoredKey` becomes an `Except` error
  value, so `stats_for` and its convenience wrappers return
  `Except Error _`.

`lru/key-statistics.hpp`, `lru/error.hpp` and the privileged mutator
`Internal::StatisticsMutator` are not part of the visible sources; they are
modelled from the spec where indicated.
-/

set_option autoImplicit false

namespace LRU

/-- Modelled from the spec: `lru/error.hpp` is outside the visible sources.
§7 of the spec names a single error kind, `UnmonitoredKey`, signalled by the
per-key read accessors. -/
inductive Error where
  | UnmonitoredKey
deriving DecidableEq, Repr

/-- Modelled from the spec: `lru/key-statistics.hpp` is outside the visible
sources. §3 of the spec: two non-negative integers `hits` and `misses`,
created with both fields zero, with derived value `accesses = hits + misses`. -/
structure KeyStatistics where
  hits : Nat := 0
  misses : Nat := 0
deriving DecidableEq, Repr

/-- Derived value of a per-key counter pair: `accesses = hits + misses`. -/
def KeyStatistics.accesses (v : KeyStatistics) : Nat :=
  v.hits + v.misses

/-- The `HitMap` of the ledger (`std::unordered_map<Key, KeyStatistics>`),
as an association list. -/
abbrev HitMap (K : Type) := List (K × KeyStatistics)

variable {K : Type} [DecidableEq K]

/-- `_hit_map.find(key)`: the mapped value of the unique entry for `key`,
if present. -/
def lookupKey : HitMap K → K → Option KeyStatistics
  | [], _ => none
  | (k, v) :: rest, key => if k = key then some v else lookupKey rest key

/-- `_hit_map.find(key) != _hit_map.end()`: whether an entry for `key`
exists (the presence test performed by `emplace`). -/
def containsKey (m : HitMap K) (key : K) : Bool :=
  (lookupKey m key).isSome

/-- `_hit_map.count(key)`: the number of entries for `key` (0 or 1 for a
key-unique map). -/
def countKey : HitMap K → K → Nat
  | [], _ => 0
  | p :: rest, key => (if p.1 = key then 1 else 0) + countKey rest key

/-- `_hit_map.erase(key)`: remove every entry for `key` (exactly one, for a
key-unique map). -/
def eraseKey : HitMap K → K → HitMap K
  | [], _ => []
  | p :: rest, key =>
      if p.1 = key then eraseKey rest key else p :: eraseKey rest key

/-- The sum over the entries of a hit map of per-key `hits + misses`. -/
def sumAcc : HitMap K → Nat
  | [] => 0
  | p :: rest => p.2.hits + p.2.misses + sumAcc rest

/-- Modelled from the spec (§4.2 step 2, for `Internal::StatisticsMutator`,
which is outside the visible sources): increment exactly one of the two
per-key counters, `hits` for a hit and `misses` for a miss. -/
def bumpCounter (hit : Bool) (v : KeyStatistics) : KeyStatistics :=
  if hit then { v with hits := v.hits + 1 } else { v with misses := v.misses + 1 }

/-- Modelled from the spec (§4.2 step 2): update the entry for `key`, when
one exists, by `bumpCounter`; leave the map unchanged when the key is
unmonitored. -/
def recordMap (key : K) (hit : Bool) : HitMap K → HitMap K
  | [] => []
  | p :: rest =>
      (if p.1 = key then (p.1, bumpCounter hit p.2) else p) :: recordMap key hit rest

/-- The statistics ledger `LRU::Statistics<Key>`: two aggregate counters and
the per-key hit map (`statistics.hpp`, lines 145-155). -/
structure Statistics (K : Type) where
  _total_accesses : Nat
  _total_hits : Nat
  _hit_map : HitMap K
deriving DecidableEq, Repr

namespace Statistics

/-- The default constructor `Statistics()`: zero aggregates, empty map. -/
def empty : Statistics K :=
  ⟨0, 0, []⟩

/-- `total_accesses()`. -/
def total_accesses (s : Statistics K) : Nat :=
  s._total_accesses

/-- `total_hits()`. -/
def total_hits (s : Statistics K) : Nat :=
  s._total_hits

/-- `total_misses()`: `total_accesses() - total_hits()` (`size_t`
subtraction; on the reachable states, where hits never exceed accesses, this
agrees with truncated subtraction on `Nat`). -/
def total_misses (s : Statistics K) : Nat :=
  s.total_accesses - s.total_hits

/-- `stats_for(key)`: the per-key counters, or the `UnmonitoredKey` error
when `_hit_map` has no entry for `key`. -/
def stats_for (s : Statistics K) (key : K) : Except Error KeyStatistics :=
  match lookupKey s._hit_map key with
  | none => .error .UnmonitoredKey
  | some v => .ok v

/-- `hits_for(key)`: `stats_for(key).hits`, propagating the error. -/
def hits_for (s : Statistics K) (key : K) : Except Error Nat :=
  (s.stats_for key).map KeyStatistics.hits

/-- `misses_for(key)`: `stats_for(key).misses`, propagating the error. -/
def misses_for (s : Statistics K) (key : K) : Except Error Nat :=
  (s.stats_for key).map KeyStatistics.misses

/-- `accesses_for(key)`: `stats_for(key).accesses()`, propagating the
error. -/
def accesses_for (s : Statistics K) (key : K) : Except Error Nat :=
  (s.stats_for key).map KeyStatistics.accesses

/-- `operator[](key) const`: `return stats_for(key);`. -/
def subscript (s : Statistics K) (key : K) : Except Error KeyStatistics :=
  s.stats_for key

/-- `monitor(key)`: `_hit_map.emplace(key, KeyStatistics())` — inserts a
zero-initialised entry, and does nothing when the key is already present. -/
def monitor (s : Statistics K) (key : K) : Statistics K :=
  if containsKey s._hit_map key then s
  else { s with _hit_map := (key, {}) :: s._hit_map }

/-- `unmonitor(key)`: `_hit_map.erase(key)`. -/
def unmonitor (s : Statistics K) (key : K) : Statistics K :=
  { s with _hit_map := eraseKey s._hit_map key }

/-- `unmonitor_all()`: `_hit_map.clear()`. -/
def unmonitor_all (s : Statistics K) : Statistics K :=
  { s with _hit_map := [] }

/-- `is_monitoring(key)`: `_hit_map.count(key)`, read as a boolean. -/
def is_monitoring (s : Statistics K) (key : K) : Bool :=
  countKey s._hit_map key != 0

/-- `number_of_monitored_keys()`: `_hit_map.size()`. -/
def number_of_monitored_keys (s : Statistics K) : Nat :=
  s._hit_map.length

/-- `is_monitoring_keys()`: `!_hit_map.empty()` (the C++ declared return
type is `size_t`, carrying the 0/1 value of the negated emptiness test). -/
def is_monitoring_keys (s : Statistics K) : Bool :=
  !s._hit_map.isEmpty

/-- The iterator-pair / range / initializer-list constructors: start from
the default constructor and `monitor` each key in order. -/
def ofKeys (keys : List K) : Statistics K :=
  keys.foldl monitor empty

/-- Modelled from the spec (§4.2, for `Internal::StatisticsMutator`, which
is outside the visible sources): record one access outcome. Step 1:
increment `total_accesses` unconditionally and `total_hits` on a hit.
Step 2: increment the matching per-key counter when the key is monitored,
and skip the per-key update otherwise. -/
def recordAccess (s : Statistics K) (key : K) (hit : Bool) : Statistics K :=
  { _total_accesses := s._total_accesses + 1
    _total_hits := s._total_hits + (if hit then 1 else 0)
    _hit_map := recordMap key hit s._hit_map }

end Statistics

/-- One operation on the ledger: the administrative calls of the public API
together with the privileged record-outcome call. -/
inductive Op (K : Type) where
  | monitor : K → Op K
  | unmonitor : K → Op K
  | unmonitorAll : Op K
  | record : K → Bool → Op K
deriving DecidableEq, Repr

/-- Apply one operation to a ledger state. -/
def applyOp (s : Statistics K) : Op K → Statistics K
  | .monitor key => s.monitor key
  | .unmonitor key => s.unmonitor key
  | .unmonitorAll => s.unmonitor_all
  | .record key hit => s.recordAccess key hit

/-- Apply a sequence of operations, first operation first. -/
def runOps (s : Statistics K) (ops : List (Op K)) : Statistics K :=
  ops.foldl applyOp s

/-- A ledger state is reachable when some sequence of operations produces it
from the default constructor. (The read accessors mutate nothing — they are
`const` member functions — and the bulk constructors only chain `monitor`
calls, so this trace language covers every way a state can arise.) -/
def Reachable (s : Statistics K) : Prop :=
  ∃ ops : List (Op K), runOps Statistics.empty ops = s

/-- Key-uniqueness of the hit map: the well-formedness guaranteed by
`std::unordered_map` and re-established below for all reachable states. -/
def WF (s : Statistics K) : Prop :=
  (s._hit_map.map Prod.fst).Nodup

/-- The sum, over the currently monitored keys, of per-key
`hits + misses`. -/
def sumMonitoredAccesses (s : Statistics K) : Nat :=
  sumAcc s._hit_map

/-- A trace is clean from a state when it contains no `unmonitor` and no
`unmonitor_all` call, and every recorded event targets a key that is
monitored at the moment of the event. The spec's aggregate-equals-sum
invariant is claimed exactly for such histories. -/
def cleanFrom (s : Statistics K) : List (Op K) → Bool
  | [] => true
  | op :: rest =>
      (match op with
       | Op.monitor _ => true
       | Op.record key _ => s.is_monitoring key
       | Op.unmonitor _ => false
       | Op.unmonitorAll => false) && cleanFrom (applyOp s op) rest

/-- One administrative call of the monitoring lifecycle (the sequences
quantified over in §8 of the spec). -/
inductive MonOp (K : Type) where
  | mon : K → MonOp K
  | unmon : K → MonOp K
deriving DecidableEq, Repr

/-- Apply one administrative call. -/
def applyMonOp (s : Statistics K) : MonOp K → Statistics K
  | .mon key => s.monitor key
  | .unmon key => s.unmonitor key

/-- Apply a sequence of administrative calls, first call first. -/
def runMonOps (s : Statistics K) (l : List (MonOp K)) : Statistics K :=
  l.foldl applyMonOp s

/-- The most recent call of the sequence affecting `key`: `some true` when
it is a `monitor`, `some false` when it is an `unmonitor`, `none` when no
call in the sequence affects `key`. -/
def lastFor : List (MonOp K) → K → Option Bool
  | [], _ => none
  | op :: rest, key =>
      match lastFor rest key with
      | some b => some b
      | none =>
          match op with
          | .mon k => if k = key then some true else none
          | .unmon k => if k = key then some false else none

/-! ### Helper lemmas on the hit map -/

theorem lookupKey_eq_none {m : HitMap K} {key : K} :
    lookupKey m key = none ↔ key ∉ m.map Prod.fst := by
  induction m with
  | nil => simp [lookupKey]
  | cons p rest ih =>
    obtain ⟨k, v⟩ := p
    by_cases hk : k = key
    · subst hk
      simp [lookupKey]
    · simp [lookupKey, hk, ih, Ne.symm hk]

theorem lookupKey_isSome {m : HitMap K} {key : K} :
    (lookupKey m key).isSome = true ↔ key ∈ m.map Prod.fst := by
  rw [Option.isSome_iff_ne_none, Ne, lookupKey_eq_none, not_not]

theorem countKey_eq_zero {m : HitMap K} {key : K} :
    countKey m key = 0 ↔ key ∉ m.map Prod.fst := by
  induction m with
  | nil => simp [countKey]
  | cons p rest ih =>
    by_cases hk : p.1 = key
    · simp [countKey, hk, ih]
    · simp [countKey, hk, ih, Ne.symm hk]

theorem countKey_ne_zero {m : HitMap K} {key : K} :
    countKey m key ≠ 0 ↔ key ∈ m.map Prod.fst := by
  rw [Ne, countKey_eq_zero, not_not]

theorem countKey_le_one {m : HitMap K} {key : K}
    (h : (m.map Prod.fst).Nodup) : countKey m key ≤ 1 := by
  induction m with
  | nil => simp [countKey]
  | cons p rest ih =>
    simp only [List.map_cons, List.nodup_cons] at h
    by_cases hk : p.1 = key
    · have h0 : countKey rest key = 0 := countKey_eq_zero.mpr (hk ▸ h.1)
      simp [countKey, hk, h0]
    · simpa [countKey, hk] using ih h.2

theorem eraseKey_sublist (m : HitMap K) (key : K) :
    (eraseKey m key).Sublist m := by
  induction m with
  | nil => simp [eraseKey]
  | cons p rest ih =>
    by_cases hk : p.1 = key
    · simpa [eraseKey, hk] using ih.cons p
    · simpa [eraseKey, hk] using ih.cons₂ p

theorem sumAcc_eraseKey_le (m : HitMap K) (key : K) :
    sumAcc (eraseKey m key) ≤ sumAcc m := by
  induction m with
  | nil => simp [eraseKey]
  | cons p rest ih =>
    by_cases hk : p.1 = key
    · simp only [eraseKey, hk, if_pos, sumAcc]
      omega
    · simp only [eraseKey, hk, if_neg, not_false_iff, sumAcc]
      omega

theorem not_mem_keys_eraseKey (m : HitMap K) (key : K) :
    key ∉ (eraseKey m key).map Prod.fst := by
  induction m with
  | nil => simp [eraseKey]
  | cons p rest ih =>
    by_cases hk : p.1 = key
    · simpa [eraseKey, hk] using ih
    · simp [eraseKey, hk, Ne.symm hk, ih]

theorem countKey_eraseKey (m : HitMap K) (k key : K) :
    countKey (eraseKey m k) key = if key = k then 0 else countKey m key := by
  by_cases h2 : key = k
  · subst h2
    simp [countKey_eq_zero.mpr (not_mem_keys_eraseKey m key)]
  · simp only [h2, if_neg, not_false_iff]
    have hk2 : ¬ k = key := fun hc => h2 hc.symm
    induction m with
    | nil => rfl
    | cons p rest ih =>
      by_cases h1 : p.1 = k
      · have hpk : ¬ p.1 = key := fun hc => h2 (hc.symm.trans h1)
        simp [eraseKey, countKey, h1, hpk, hk2, ih]
      · simp [eraseKey, countKey, h1, h2, ih]

theorem lookupKey_eraseKey (m : HitMap K) (k key : K) :
    lookupKey (eraseKey m k) key = if key = k then none else lookupKey m key := by
  by_cases h2 : key = k
  · subst h2
    simp [lookupKey_eq_none.mpr (not_mem_keys_eraseKey m key)]
  · simp only [h2, if_neg, not_false_iff]
    have hk2 : ¬ k = key := fun hc => h2 hc.symm
    induction m with
    | nil => rfl
    | cons p rest ih =>
      by_cases h1 : p.1 = k
      · have hpk : ¬ p.1 = key := fun hc => h2 (hc.symm.trans h1)
        simp [eraseKey, lookupKey, h1, hpk, hk2, ih]
      · by_cases hpk : p.1 = key <;>
          simp [eraseKey, lookupKey, h1, h2, hpk, ih]

theorem eraseKey_of_not_mem {m : HitMap K} {key : K}
    (h : key ∉ m.map Prod.fst) : eraseKey m key = m := by
  induction m with
  | nil => rfl
  | cons p rest ih =>
    simp only [List.map_cons, List.mem_cons, not_or] at h
    have hk : ¬ p.1 = key := fun hc => h.1 hc.symm
    simp [eraseKey, hk, ih h.2]

theorem keys_recordMap (key : K) (hit : Bool) (m : HitMap K) :
    (recordMap key hit m).map Prod.fst = m.map Prod.fst := by
  induction m with
  | nil => rfl
  | cons p rest ih =>
    by_cases hk : p.1 = key <;> simp [recordMap, hk, ih]

theorem bumpCounter_acc (hit : Bool) (v : KeyStatistics) :
    (bumpCounter hit v).hits + (bumpCounter hit v).misses = v.hits + v.misses + 1 := by
  cases hit <;> simp [bumpCounter] <;> omega

theorem sumAcc_recordMap (key : K) (hit : Bool) (m : HitMap K) :
    sumAcc (recordMap key hit m) = sumAcc m + countKey m key := by
  induction m with
  | nil => simp [recordMap, sumAcc, countKey]
  | cons p rest ih =>
    by_cases hk : p.1 = key
    · simp only [recordMap, hk, if_pos, sumAcc, countKey, ih, bumpCounter_acc]
      omega
    · simp only [recordMap, hk, if_neg, not_false_iff, sumAcc, countKey, ih]
      omega

/-! ### Helper lemmas on the ledger operations -/

theorem is_monitoring_iff_mem {s : Statistics K} {key : K} :
    s.is_monitoring key = true ↔ key ∈ s._hit_map.map Prod.fst := by
  rw [Statistics.is_monitoring, bne_iff_ne]
  exact countKey_ne_zero

theorem is_monitoring_iff_lookup {s : Statistics K} {key : K} :
    s.is_monitoring key = true ↔ (lookupKey s._hit_map key).isSome = true := by
  rw [is_monitoring_iff_mem, lookupKey_isSome]

theorem containsKey_iff_mem {m : HitMap K} {key : K} :
    containsKey m key = true ↔ key ∈ m.map Prod.fst := by
  rw [containsKey, lookupKey_isSome]

theorem totals_applyOp (s : Statistics K) (op : Op K) :
    (applyOp s op).total_accesses =
      s.total_accesses + (match op with | Op.record _ _ => 1 | _ => 0) ∧
    (applyOp s op).total_hits =
      s.total_hits + (match op with | Op.record _ true => 1 | _ => 0) := by
  cases op with
  | monitor k =>
    by_cases hc : containsKey s._hit_map k <;>
      simp [applyOp, Statistics.monitor, hc, Statistics.total_accesses,
        Statistics.total_hits]
  | unmonitor k =>
    simp [applyOp, Statistics.unmonitor, Statistics.total_accesses,
      Statistics.total_hits]
  | unmonitorAll =>
    simp [applyOp, Statistics.unmonitor_all, Statistics.total_accesses,
      Statistics.total_hits]
  | record k hit =>
    cases hit <;>
      simp [applyOp, Statistics.recordAccess, Statistics.total_accesses,
        Statistics.total_hits]

theorem WF_applyOp {s : Statistics K} (op : Op K) (h : WF s) :
    WF (applyOp s op) := by
  cases op with
  | monitor k =>
    by_cases hc : containsKey s._hit_map k
    · simpa [applyOp, Statistics.monitor, hc] using h
    · have hmem : k ∉ s._hit_map.map Prod.fst := by
        intro hm
        exact hc (containsKey_iff_mem.mpr hm)
      simp only [WF, applyOp, Statistics.monitor, hc, if_neg, Bool.false_eq_true,
        not_false_iff, List.map_cons, List.nodup_cons]
      exact ⟨hmem, h⟩
  | unmonitor k =>
    exact List.Nodup.sublist (((eraseKey_sublist s._hit_map k)).map Prod.fst) h
  | unmonitorAll =>
    simp [WF, applyOp, Statistics.unmonitor_all]
  | record k hit =>
    simpa [WF, applyOp, Statistics.recordAccess, keys_recordMap] using h

theorem runOps_preserves (P : Statistics K → Prop)
    (hstep : ∀ (s : Statistics K) (op : Op K), P s → P (applyOp s op)) :
    ∀ (ops : List (Op K)) (s : Statistics K), P s → P (runOps s ops) := by
  intro ops
  induction ops with
  | nil => intro s hs; exact hs
  | cons op rest ih =>
    intro s hs
    exact ih (applyOp s op) (hstep s op hs)

theorem reachable_WF {s : Statistics K} (h : Reachable s) : WF s := by
  obtain ⟨ops, rfl⟩ := h
  exact runOps_preserves WF (fun s op hs => WF_applyOp op hs) ops
    Statistics.empty (by simp [WF, Statistics.empty])

theorem reachable_hits_le {s : Statistics K} (h : Reachable s) :
    s.total_hits ≤ s.total_accesses := by
  obtain ⟨ops, rfl⟩ := h
  refine runOps_preserves (fun s => s.total_hits ≤ s.total_accesses)
    (fun s op hs => ?_) ops Statistics.empty
    (by simp [Statistics.empty, Statistics.total_hits, Statistics.total_accesses])
  obtain ⟨ha, hh⟩ := totals_applyOp s op
  rw [ha, hh]
  cases op with
  | monitor k => simpa using hs
  | unmonitor k => simpa using hs
  | unmonitorAll => simpa using hs
  | record k hit => cases hit <;> simp <;> omega

theorem reachable_sum_le {s : Statistics K} (h : Reachable s) :
    sumMonitoredAccesses s ≤ s.total_accesses := by
  obtain ⟨ops, rfl⟩ := h
  have main :
      WF (runOps Statistics.empty ops) ∧
        sumMonitoredAccesses (runOps Statistics.empty ops) ≤
          (runOps Statistics.empty ops).total_accesses := by
    refine runOps_preserves
      (fun s => WF s ∧ sumMonitoredAccesses s ≤ s.total_accesses)
      (fun s op hs => ?_) ops Statistics.empty
      (by simp [WF, Statistics.empty, sumMonitoredAccesses, sumAcc,
        Statistics.total_accesses])
    refine ⟨WF_applyOp op hs.1, ?_⟩
    obtain ⟨ha, _⟩ := totals_applyOp s op
    rw [ha]
    cases op with
    | monitor k =>
      by_cases hc : containsKey s._hit_map k
      · simpa [applyOp, Statistics.monitor, hc, sumMonitoredAccesses] using hs.2
      · have := hs.2
        simp only [applyOp, Statistics.monitor, hc, if_neg, Bool.false_eq_true,
          not_false_iff, sumMonitoredAccesses, sumAcc] at *
        omega
    | unmonitor k =>
      have h1 := sumAcc_eraseKey_le s._hit_map k
      have h2 := hs.2
      simp only [applyOp, Statistics.unmonitor, sumMonitoredAccesses] at *
      omega
    | unmonitorAll =>
      simp [applyOp, Statistics.unmonitor_all, sumMonitoredAccesses, sumAcc]
    | record k hit =>
      have h1 : countKey s._hit_map k ≤ 1 := countKey_le_one hs.1
      have h2 := hs.2
      simp only [applyOp, Statistics.recordAccess, sumMonitoredAccesses,
        sumAcc_recordMap] at *
      omega
  exact main.2

theorem clean_total_eq_sum (ops : List (Op K)) :
    ∀ s : Statistics K, WF s → s.total_accesses = sumMonitoredAccesses s →
      cleanFrom s ops = true →
      (runOps s ops).total_accesses = sumMonitoredAccesses (runOps s ops) := by
  induction ops with
  | nil => intro s _ hEq _; exact hEq
  | cons op rest ih =>
    intro s hWF hEq hClean
    have hWF2 : WF (applyOp s op) := WF_applyOp op hWF
    cases op with
    | monitor k =>
      refine ih (applyOp s (Op.monitor k)) hWF2 ?_ (by simpa [cleanFrom] using hClean)
      by_cases hc : containsKey s._hit_map k
      · simpa [applyOp, Statistics.monitor, hc] using hEq
      · simp only [applyOp, Statistics.monitor, hc, if_neg, Bool.false_eq_true,
          not_false_iff, sumMonitoredAccesses, sumAcc, Statistics.total_accesses] at *
        omega
    | unmonitor k =>
      simp [cleanFrom] at hClean
    | unmonitorAll =>
      simp [cleanFrom] at hClean
    | record k hit =>
      rw [cleanFrom, Bool.and_eq_true] at hClean
      obtain ⟨hmon, hrest⟩ := hClean
      refine ih (applyOp s (Op.record k hit)) hWF2 ?_ hrest
      have h1 : countKey s._hit_map k = 1 := by
        have hle : countKey s._hit_map k ≤ 1 := countKey_le_one hWF
        have hne : countKey s._hit_map k ≠ 0 := by
          rw [Statistics.is_monitoring, bne_iff_ne] at hmon
          exact hmon
        omega
      simp only [applyOp, Statistics.recordAccess, sumMonitoredAccesses,
        sumAcc_recordMap, Statistics.total_accesses] at *
      omega

/-! ### Helper lemmas for the monitoring lifecycle -/

theorem is_monitoring_monitor (s : Statistics K) (k key : K) :
    (s.monitor k).is_monitoring key =
      if k = key then true else s.is_monitoring key := by
  by_cases hc : containsKey s._hit_map k
  · by_cases hk : k = key
    · subst hk
      have : s.is_monitoring k = true :=
        is_monitoring_iff_mem.mpr (containsKey_iff_mem.mp hc)
      simp [Statistics.monitor, hc, this]
    · simp [Statistics.monitor, hc, hk]
  · by_cases hk : k = key
    · subst hk
      simp only [Statistics.monitor, hc, if_neg, Bool.false_eq_true, not_false_iff,
        Statistics.is_monitoring, countKey, if_true, if_pos]
      simp [bne_iff_ne]
    · simp [Statistics.monitor, hc, Statistics.is_monitoring, countKey, hk]

theorem is_monitoring_unmonitor (s : Statistics K) (k key : K) :
    (s.unmonitor k).is_monitoring key =
      if k = key then false else s.is_monitoring key := by
  by_cases hk : k = key
  · subst hk
    simp [Statistics.unmonitor, Statistics.is_monitoring, countKey_eraseKey]
  · have hk2 : ¬ key = k := fun hc => hk hc.symm
    simp [Statistics.unmonitor, Statistics.is_monitoring, countKey_eraseKey,
      hk, hk2]

theorem is_monitoring_runMonOps (l : List (MonOp K)) :
    ∀ (s : Statistics K) (key : K),
      (runMonOps s l).is_monitoring key =
        (lastFor l key).getD (s.is_monitoring key) := by
  induction l with
  | nil => intro s key; rfl
  | cons op rest ih =>
    intro s key
    have hrun : runMonOps s (op :: rest) = runMonOps (applyMonOp s op) rest := rfl
    rw [hrun, ih]
    cases hres : lastFor rest key with
    | some b => simp [lastFor, hres]
    | none =>
      cases op with
      | mon k =>
        by_cases hk : k = key <;>
          simp [lastFor, hres, applyMonOp, is_monitoring_monitor, hk]
      | unmon k =>
        by_cases hk : k = key <;>
          simp [lastFor, hres, applyMonOp, is_monitoring_unmonitor, hk]

theorem card_monitored_of_WF {s : Statistics K} (hWF : WF s) :
    ∃ keys : Finset K, (∀ k, k ∈ keys ↔ s.is_monitoring k = true) ∧
      s.number_of_monitored_keys = keys.card := by
  refine ⟨(s._hit_map.map Prod.fst).toFinset, fun k => ?_, ?_⟩
  · rw [List.mem_toFinset, is_monitoring_iff_mem]
  · rw [Statistics.number_of_monitored_keys, List.toFinset_card_of_nodup hWF,
      List.length_map]

theorem is_monitoring_keys_iff (s : Statistics K) :
    s.is_monitoring_keys = true ↔ ∃ k, s.is_monitoring k = true := by
  cases hm : s._hit_map with
  | nil =>
    simp only [Statistics.is_monitoring_keys, hm, List.isEmpty_nil, Bool.not_true,
      Bool.false_eq_true, false_iff, not_exists]
    intro k
    rw [Statistics.is_monitoring, hm]
    simp [countKey]
  | cons p rest =>
    simp only [Statistics.is_monitoring_keys, hm, List.isEmpty_cons, Bool.not_false,
      true_iff]
    refine ⟨p.1, is_monitoring_iff_mem.mpr ?_⟩
    rw [hm]
    simp

theorem is_monitoring_eq_false_iff {s : Statistics K} {key : K} :
    s.is_monitoring key = false ↔ lookupKey s._hit_map key = none := by
  constructor
  · intro h
    cases hl : lookupKey s._hit_map key with
    | none => rfl
    | some v =>
      have ht : s.is_monitoring key = true :=
        is_monitoring_iff_lookup.mpr (by simp [hl])
      rw [ht] at h
      cases h
  · intro h
    rw [← Bool.not_eq_true]
    intro ht
    rw [is_monitoring_iff_lookup, h] at ht
    simp at ht

/-! ### The claims -/

/-- Claim C2: for every key `k`, `stats_for(k)` fails with `UnmonitoredKey`
exactly when `k` is not currently monitored and otherwise returns `k`'s
per-key counters, and `hits_for(k)`, `misses_for(k)`, `accesses_for(k)`
fail under exactly the same condition and otherwise return `k`'s hits,
misses, and hits plus misses. -/
theorem stats_accessors_fail_iff_unmonitored (s : Statistics K) (key : K) :
    (s.is_monitoring key = false →
      s.stats_for key = Except.error Error.UnmonitoredKey ∧
      s.hits_for key = Except.error Error.UnmonitoredKey ∧
      s.misses_for key = Except.error Error.UnmonitoredKey ∧
      s.accesses_for key = Except.error Error.UnmonitoredKey) ∧
    (s.is_monitoring key = true →
      ∃ v : KeyStatistics, lookupKey s._hit_map key = some v ∧
        s.stats_for key = Except.ok v ∧
        s.hits_for key = Except.ok v.hits ∧
        s.misses_for key = Except.ok v.misses ∧
        s.accesses_for key = Except.ok (v.hits + v.misses)) := by
  constructor
  · intro h
    have hl : lookupKey s._hit_map key = none := is_monitoring_eq_false_iff.mp h
    simp [Statistics.stats_for, Statistics.hits_for, Statistics.misses_for,
      Statistics.accesses_for, hl, Except.map]
  · intro h
    have hl : (lookupKey s._hit_map key).isSome = true :=
      is_monitoring_iff_lookup.mp h
    cases hv : lookupKey s._hit_map key with
    | none => rw [hv] at hl; simp at hl
    | some v =>
      exact ⟨v, rfl, by
        simp [Statistics.stats_for, Statistics.hits_for, Statistics.misses_for,
          Statistics.accesses_for, KeyStatistics.accesses, hv, Except.map]⟩

/-- Claim C2 witness: on the ledger monitoring only key 1, the per-key
accessors at key 0 all fail with `UnmonitoredKey`. -/
theorem stats_accessors_fail_iff_unmonitored_witness :
    (Statistics.monitor (Statistics.empty : Statistics Nat) 1).stats_for 0 =
        Except.error Error.UnmonitoredKey ∧
      (Statistics.monitor (Statistics.empty : Statistics Nat) 1).hits_for 0 =
        Except.error Error.UnmonitoredKey ∧
      (Statistics.monitor (Statistics.empty : Statistics Nat) 1).misses_for 0 =
        Except.error Error.UnmonitoredKey ∧
      (Statistics.monitor (Statistics.empty : Statistics Nat) 1).accesses_for 0 =
        Except.error Error.UnmonitoredKey :=
  (stats_accessors_fail_iff_unmonitored
    (Statistics.monitor (Statistics.empty : Statistics Nat) 1) 0).1 (by decide)

/-- Claim C3: `total_accesses() ≥ total_hits()` holds in the freshly
constructed ledger, is preserved by every operation (the administrative
calls and the privileged recording call; the `const` read accessors do not
change the state), and hence holds in every reachable ledger state. -/
theorem total_hits_le_total_accesses :
    (Statistics.empty : Statistics K).total_hits ≤
        (Statistics.empty : Statistics K).total_accesses ∧
      (∀ (s : Statistics K) (op : Op K),
        s.total_hits ≤ s.total_accesses →
          (applyOp s op).total_hits ≤ (applyOp s op).total_accesses) ∧
      (∀ s : Statistics K, Reachable s → s.total_hits ≤ s.total_accesses) := by
  refine ⟨le_refl 0, fun s op hs => ?_, fun s hs => reachable_hits_le hs⟩
  obtain ⟨ha, hh⟩ := totals_applyOp s op
  rw [ha, hh]
  cases op with
  | monitor k => simpa using hs
  | unmonitor k => simpa using hs
  | unmonitorAll => simpa using hs
  | record k hit => cases hit <;> simp <;> omega

/-- Claim C3 witness: the inequality at a concrete reachable state with one
recorded hit and one recorded miss. -/
theorem total_hits_le_total_accesses_witness :
    (runOps (Statistics.empty : Statistics Nat)
        [Op.record 0 true, Op.record 1 false]).total_hits ≤
      (runOps (Statistics.empty : Statistics Nat)
        [Op.record 0 true, Op.record 1 false]).total_accesses :=
  total_hits_le_total_accesses.2.2 _ ⟨[Op.record 0 true, Op.record 1 false], rfl⟩

/-- Claim C4: `monitor(k)` on an already monitored key leaves the whole
ledger state unchanged (counters preserved, nothing else touched); on an
unmonitored key it adds an entry for `k` with both counters zero and leaves
the aggregates and all previous entries unchanged. -/
theorem monitor_idempotent_preserves (s : Statistics K) (key : K) :
    (s.is_monitoring key = true → s.monitor key = s) ∧
    (s.is_monitoring key = false →
      (s.monitor key)._hit_map = (key, ⟨0, 0⟩) :: s._hit_map ∧
      (s.monitor key).total_accesses = s.total_accesses ∧
      (s.monitor key).total_hits = s.total_hits) := by
  constructor
  · intro h
    have hc : containsKey s._hit_map key = true :=
      containsKey_iff_mem.mpr (is_monitoring_iff_mem.mp h)
    simp [Statistics.monitor, hc]
  · intro h
    have hl : lookupKey s._hit_map key = none := is_monitoring_eq_false_iff.mp h
    have hc : containsKey s._hit_map key = false := by
      simp [containsKey, hl]
    simp [Statistics.monitor, hc, Statistics.total_accesses, Statistics.total_hits]

/-- Claim C4 witness: monitoring key 0 twice in a row equals monitoring it
once, and the first `monitor` adds the zero-initialised entry. -/
theorem monitor_idempotent_preserves_witness :
    Statistics.monitor (Statistics.monitor (Statistics.empty : Statistics Nat) 0) 0 =
        Statistics.monitor (Statistics.empty : Statistics Nat) 0 ∧
      (Statistics.monitor (Statistics.empty : Statistics Nat) 0)._hit_map =
        (0, ⟨0, 0⟩) :: (Statistics.empty : Statistics Nat)._hit_map :=
  ⟨(monitor_idempotent_preserves
      (Statistics.monitor (Statistics.empty : Statistics Nat) 0) 0).1 (by decide),
    ((monitor_idempotent_preserves (Statistics.empty : Statistics Nat) 0).2
      (by decide)).1⟩

/-- Claim C5: after `unmonitor_all()` the monitored set is empty — every
per-key query fails with `UnmonitoredKey` — while `total_accesses()` and
`total_hits()` keep their values from before the call. -/
theorem unmonitor_all_clears_keeps_aggregates (s : Statistics K) :
    s.unmonitor_all._hit_map = [] ∧
    (∀ key : K, s.unmonitor_all.is_monitoring key = false) ∧
    (∀ key : K, s.unmonitor_all.stats_for key = Except.error Error.UnmonitoredKey) ∧
    s.unmonitor_all.total_accesses = s.total_accesses ∧
    s.unmonitor_all.total_hits = s.total_hits := by
  refine ⟨rfl, fun key => ?_, fun key => ?_, rfl, rfl⟩
  · simp [Statistics.unmonitor_all, Statistics.is_monitoring, countKey]
  · simp [Statistics.unmonitor_all, Statistics.stats_for, lookupKey]

/-- Claim C6: `total_misses()` is exactly `total_accesses() - total_hits()`,
and on every reachable state this subtraction is exact (no underflow):
misses plus hits give back accesses, also over the integers. -/
theorem total_misses_eq_accesses_sub_hits (s : Statistics K)
    (h : Reachable s) :
    s.total_misses = s.total_accesses - s.total_hits ∧
    s.total_misses + s.total_hits = s.total_accesses ∧
    (s.total_misses : Int) = (s.total_accesses : Int) - (s.total_hits : Int) := by
  have hle : s.total_hits ≤ s.total_accesses := reachable_hits_le h
  refine ⟨rfl, ?_, ?_⟩
  · rw [Statistics.total_misses]
    omega
  · rw [Statistics.total_misses]
    omega

/-- Claim C6 witness: the identity at a concrete reachable state with two
accesses, one of them a hit. -/
theorem total_misses_eq_accesses_sub_hits_witness :
    (runOps (Statistics.empty : Statistics Nat)
          [Op.record 0 true, Op.record 1 false]).total_misses +
        (runOps (Statistics.empty : Statistics Nat)
          [Op.record 0 true, Op.record 1 false]).total_hits =
      (runOps (Statistics.empty : Statistics Nat)
        [Op.record 0 true, Op.record 1 false]).total_accesses :=
  (total_misses_eq_accesses_sub_hits _
    ⟨[Op.record 0 true, Op.record 1 false], rfl⟩).2.1

/-- Claim C7: `unmonitor(k)` removes `k` from the monitored set and discards
its counters (a later `stats_for(k)` fails with `UnmonitoredKey`, and
re-monitoring starts again from zero counters); on an unmonitored key it is
a no-op and not an error; and in all cases every other key's entry and both
aggregate counters are unchanged. -/
theorem unmonitor_discards_and_frames (s : Statistics K) (key : K) :
    (s.unmonitor key).is_monitoring key = false ∧
    (s.unmonitor key).stats_for key = Except.error Error.UnmonitoredKey ∧
    lookupKey ((s.unmonitor key).monitor key)._hit_map key = some ⟨0, 0⟩ ∧
    (s.is_monitoring key = false → s.unmonitor key = s) ∧
    (∀ k, k ≠ key →
      lookupKey (s.unmonitor key)._hit_map k = lookupKey s._hit_map k) ∧
    (s.unmonitor key).total_accesses = s.total_accesses ∧
    (s.unmonitor key).total_hits = s.total_hits := by
  refine ⟨?_, ?_, ?_, ?_, fun k hk => ?_, rfl, rfl⟩
  · simp [is_monitoring_unmonitor]
  · simp [Statistics.stats_for, Statistics.unmonitor, lookupKey_eraseKey]
  · have hnone : lookupKey (eraseKey s._hit_map key) key = none := by
      simp [lookupKey_eraseKey]
    simp [Statistics.monitor, Statistics.unmonitor, containsKey, hnone, lookupKey]
  · intro h
    have hm : key ∉ s._hit_map.map Prod.fst :=
      lookupKey_eq_none.mp (is_monitoring_eq_false_iff.mp h)
    simp [Statistics.unmonitor, eraseKey_of_not_mem hm]
  · simp [Statistics.unmonitor, lookupKey_eraseKey, hk]

/-- Claim C7 witness: unmonitoring a never-monitored key of the fresh
ledger leaves the ledger exactly as it was. -/
theorem unmonitor_discards_and_frames_witness :
    Statistics.unmonitor (Statistics.empty : Statistics Nat) 0 =
      Statistics.empty :=
  (unmonitor_discards_and_frames (Statistics.empty : Statistics Nat) 0).2.2.2.1
    (by decide)

/-- Claim C10: the `const` subscript operator agrees with `stats_for` on
every ledger state and key — it fails with `UnmonitoredKey` exactly on
unmonitored keys and returns the stored per-key counters on monitored ones
(being a pure query of the embedding, it inserts nothing). -/
theorem subscript_refines_stats_for (s : Statistics K) (key : K) :
    s.subscript key = s.stats_for key ∧
    (s.subscript key = Except.error Error.UnmonitoredKey ↔
      s.is_monitoring key = false) ∧
    (s.is_monitoring key = true →
      ∃ v, lookupKey s._hit_map key = some v ∧ s.subscript key = Except.ok v) := by
  refine ⟨rfl, ⟨?_, ?_⟩, ?_⟩
  · intro h
    rw [is_monitoring_eq_false_iff]
    cases hl : lookupKey s._hit_map key with
    | none => rfl
    | some v =>
      rw [Statistics.subscript, Statistics.stats_for, hl] at h
      cases h
  · intro h
    simp [Statistics.subscript, Statistics.stats_for,
      is_monitoring_eq_false_iff.mp h]
  · intro h
    cases hl : lookupKey s._hit_map key with
    | none =>
      have hfalse := (is_monitoring_eq_false_iff.mpr hl).symm.trans h
      cases hfalse
    | some v =>
      exact ⟨v, rfl, by simp [Statistics.subscript, Statistics.stats_for, hl]⟩

/-- Claim C10 witness: on the ledger monitoring key 0, the subscript at
key 0 returns the stored (zero) counters. -/
theorem subscript_refines_stats_for_witness :
    ∃ v, lookupKey
        (Statistics.monitor (Statistics.empty : Statistics Nat) 0)._hit_map 0 =
          some v ∧
      (Statistics.monitor (Statistics.empty : Statistics Nat) 0).subscript 0 =
        Except.ok v :=
  (subscript_refines_stats_for
    (Statistics.monitor (Statistics.empty : Statistics Nat) 0) 0).2.2 (by decide)

/-- Claim C1 counterexample: recording one hit for the (unmonitored) key 0
on the fresh ledger yields a reachable state whose most recent operation is
a recorded event, yet `total_accesses()` (which is 1) differs from the sum
of per-key hits and misses over the monitored keys (which is 0, the
monitored set being empty). -/
theorem aggregate_sum_counterexample :
    Reachable (Statistics.recordAccess (Statistics.empty : Statistics Nat) 0 true) ∧
    ¬ (Statistics.recordAccess
          (Statistics.empty : Statistics Nat) 0 true).total_accesses =
        sumMonitoredAccesses
          (Statistics.recordAccess (Statistics.empty : Statistics Nat) 0 true) :=
  ⟨⟨[Op.record 0 true], rfl⟩, by decide⟩

/-- Claim C1 (amended): on every reachable ledger state the sum over the
monitored keys of per-key hits plus misses is at most `total_accesses()`;
and the two are equal after every history in which each recorded event
targets a key monitored at the moment of the event and no `unmonitor` or
`unmonitor_all` call occurs. -/
theorem aggregate_sum_amended :
    (∀ s : Statistics K, Reachable s → sumMonitoredAccesses s ≤ s.total_accesses) ∧
    (∀ ops : List (Op K), cleanFrom Statistics.empty ops = true →
      (runOps Statistics.empty ops).total_accesses =
        sumMonitoredAccesses (runOps Statistics.empty ops)) := by
  refine ⟨fun s hs => reachable_sum_le hs, fun ops hclean => ?_⟩
  exact clean_total_eq_sum ops Statistics.empty (by simp [WF, Statistics.empty])
    (by simp [Statistics.empty, sumMonitoredAccesses, sumAcc,
      Statistics.total_accesses]) hclean

/-- Claim C1 (amended) witness: after monitoring key 0 and recording a hit
and a miss for it, `total_accesses()` equals the monitored per-key sum. -/
theorem aggregate_sum_amended_witness :
    (runOps (Statistics.empty : Statistics Nat)
        [Op.monitor 0, Op.record 0 true, Op.record 0 false]).total_accesses =
      sumMonitoredAccesses (runOps (Statistics.empty : Statistics Nat)
        [Op.monitor 0, Op.record 0 true, Op.record 0 false]) :=
  aggregate_sum_amended.2 _ (by decide)

/-- Claim C8: after any sequence of `monitor`/`unmonitor` calls,
`is_monitoring(k)` reports `true` exactly when the most recent call
affecting `k` was `monitor(k)` — and `false` when no call of the sequence
affects `k` and the sequence starts at the fresh ledger;
`number_of_monitored_keys()` equals the cardinality of the set of keys `k`
with `is_monitoring(k) = true` on every reachable state; and
`is_monitoring_keys()` holds exactly when at least one key is tracked.
All three queries are total functions of the embedding — they cannot
fail. -/
theorem monitoring_queries_correct :
    (∀ (s : Statistics K) (l : List (MonOp K)) (key : K),
      (runMonOps s l).is_monitoring key =
        (lastFor l key).getD (s.is_monitoring key)) ∧
    (∀ (l : List (MonOp K)) (key : K),
      (runMonOps (Statistics.empty : Statistics K) l).is_monitoring key =
        (lastFor l key).getD false) ∧
    (∀ s : Statistics K, Reachable s →
      ∃ keys : Finset K, (∀ k, k ∈ keys ↔ s.is_monitoring k = true) ∧
        s.number_of_monitored_keys = keys.card) ∧
    (∀ s : Statistics K,
      s.is_monitoring_keys = true ↔ ∃ k, s.is_monitoring k = true) := by
  refine ⟨fun s l key => is_monitoring_runMonOps l s key, fun l key => ?_,
    fun s hs => card_monitored_of_WF (reachable_WF hs), is_monitoring_keys_iff⟩
  have h0 : (Statistics.empty : Statistics K).is_monitoring key = false := by
    simp [Statistics.empty, Statistics.is_monitoring, countKey]
  rw [is_monitoring_runMonOps, h0]

/-- Claim C8 witness: the monitored-key count of the state reached by
monitoring keys 0 and 1 and then unmonitoring key 0 is the cardinality of
its monitored-key set. -/
theorem monitoring_queries_correct_witness :
    ∃ keys : Finset Nat,
      (∀ k, k ∈ keys ↔
        (runOps (Statistics.empty : Statistics Nat)
          [Op.monitor 0, Op.monitor 1, Op.unmonitor 0]).is_monitoring k = true) ∧
      (runOps (Statistics.empty : Statistics Nat)
          [Op.monitor 0, Op.monitor 1, Op.unmonitor 0]).number_of_monitored_keys =
        keys.card :=
  monitoring_queries_correct.2.2.1 _
    ⟨[Op.monitor 0, Op.monitor 1, Op.unmonitor 0], rfl⟩

end LRU
